import Mathlib

/-!
Shallow embedding of the rotary-dial cycle engine
(`src/js/measurement/RotaryCycleEngine.mjs`).

JS numbers (timestamps in milliseconds, debounce values, derived metrics)
are modelled as rationals; all values arising in the claims are exactly
representable.  `Math.round` is modelled as `fun x => ⌊x + 1/2⌋`, which
agrees with JS rounding (half away from zero towards +∞) on all reals.
The engine's mutable instance fields become an explicit `EngineState`
record threaded through each operation; the injected `nowMs` clock
becomes an explicit `now` argument of the operations that read it.
The `createdAt : Date` field of a produced cycle is wall-clock output
with no behavioural content and is omitted from the `Cycle` record.
-/

namespace RotaryDial

/-- JS `Math.round`: round half towards positive infinity. -/
def jround (x : ℚ) : ℤ := ⌊x + 1/2⌋

-- Warning keys produced by the measurement engine (`WARNING_KEYS`).
namespace WARNING_KEYS

def NSI_OPEN : String := "warnings.nsiOpen"

def DIAL_SPEED : String := "warnings.dialSpeed"

def PULSE_PAUSE_RATIO_KEY : String := "warnings.pulsePauseRatio"

end WARNING_KEYS

/-- One sampled snapshot of the three serial status lines. -/
structure Signals where
  dataCarrierDetect : Bool
  dataSetReady : Bool
  ringIndicator : Bool
deriving DecidableEq, Repr

/-- The mutable instance state of `RotaryCycleEngine`. -/
structure EngineState where
  debounceMs : ℚ
  nsiTimes : List ℚ
  nsaTimes : List ℚ
  nsrTimes : List ℚ
  nsiState : Option Bool
  nsaState : Option Bool
  nsrState : Option Bool
  hasEvaluatedCycle : Bool
  nsaMissing : Bool
deriving DecidableEq, Repr

/-- The cycle record returned by `computeCycle` (sans `createdAt`). -/
structure Cycle where
  nnMs : ℚ
  nsiTimesMs : List ℤ
  pulses : ℕ
  digit : ℕ
  fHz : ℚ
  dutyClosed : ℤ
  nsaOpenMs : Option ℤ
  nsrOnMs : Option ℤ
  debounceMs : ℚ
  hasNsa : Bool
  hasNsr : Bool
  warnings : List String
deriving DecidableEq, Repr

/-- Source `resetAll()`: clears edge logs, line states, and per-cycle flags. -/
def resetAll (s : EngineState) : EngineState :=
  { s with
    nsiTimes := [], nsaTimes := [], nsrTimes := [],
    nsiState := none, nsaState := none, nsrState := none,
    hasEvaluatedCycle := false, nsaMissing := true }

/-- The state right after `new RotaryCycleEngine(...)`:
`debounceMs = 0` followed by `resetAll()`. -/
def initialEngine : EngineState :=
  resetAll
    { debounceMs := 0, nsiTimes := [], nsaTimes := [], nsrTimes := [],
      nsiState := none, nsaState := none, nsrState := none,
      hasEvaluatedCycle := false, nsaMissing := true }

/-- Source `resetCycle()`: clears only per-cycle captured timestamps and flags. -/
def resetCycle (s : EngineState) : EngineState :=
  { s with
    nsiTimes := [], nsaTimes := [], nsrTimes := [],
    hasEvaluatedCycle := false, nsaMissing := true }

/-- Source `setDebounceMs(ms)`, i.e. `Math.max(0, Math.min(10, Number(ms) || 0))`.
`Number(ms) || 0` is the identity on every (finite) numeric input, the
domain modelled here: it only maps `NaN` (and `0` itself) to `0`. -/
def setDebounceMs (s : EngineState) (ms : ℚ) : EngineState :=
  { s with debounceMs := max 0 (min 10 ms) }

/-- Source `initializeFromSignals(signals)`: adopt the three line values, and
report the `NSI_OPEN` advisory key when the primary line starts open. -/
def initializeFromSignals (s : EngineState) (sig : Signals) :
    EngineState × Option String :=
  let s' : EngineState :=
    { s with
      nsiState := some sig.dataCarrierDetect,
      nsrState := some sig.dataSetReady,
      nsaState := some sig.ringIndicator }
  (s', if sig.dataCarrierDetect then none else some WARNING_KEYS.NSI_OPEN)

/-- Source `#handleNsa(newState)` at clock value `now`. -/
def handleNsa (s : EngineState) (v : Bool) (now : ℚ) : EngineState :=
  match s.nsaState with
  | none => { s with nsaState := some v }
  | some cur =>
    if v = cur then s
    else
      let s1 := if 2 ≤ s.nsaTimes.length then resetCycle s else s
      { s1 with
        nsaTimes := s1.nsaTimes ++ [now],
        nsaState := some v,
        nsaMissing := false }

/-- Source `#handleNsr(newState)` at clock value `now`. -/
def handleNsr (s : EngineState) (v : Bool) (now : ℚ) : EngineState :=
  match s.nsrState with
  | none => { s with nsrState := some v }
  | some cur =>
    if v = cur then s
    else { s with nsrTimes := s.nsrTimes ++ [now], nsrState := some v }

/-- Source `#handleNsi(newState)` at clock value `now`. -/
def handleNsi (s : EngineState) (v : Bool) (now : ℚ) : EngineState :=
  match s.nsiState with
  | none => { s with nsiState := some v }
  | some cur =>
    if v = cur then s
    else { s with nsiTimes := s.nsiTimes ++ [now], nsiState := some v }

/-- Sum of `l[1] - l[0]`, `l[3] - l[2]`, … over consecutive pairs.
`computeCycle`'s two accumulation loops are exactly this function on
`normalizedTimes.drop 2` (open total) and `normalizedTimes.drop 1`
(closed total). -/
def pairDiffSum : List ℤ → ℤ
  | a :: b :: rest => (b - a) + pairDiffSum rest
  | _ => 0

/-- The normalized primary timestamps of `computeCycle`:
`raw.map (v => Math.max(0, Math.round(v - raw[0])))`. -/
def normalizedNsi (s : EngineState) : List ℤ :=
  s.nsiTimes.map (fun v => max 0 (jround (v - s.nsiTimes.headD 0)))

/-- Local `nsiOpenTotalMs` of `computeCycle`. -/
def nsiOpenTotal (s : EngineState) : ℤ :=
  pairDiffSum ((normalizedNsi s).drop 2)

/-- Local `nsiClosedTotalMs` of `computeCycle`. -/
def nsiClosedTotal (s : EngineState) : ℤ :=
  pairDiffSum ((normalizedNsi s).drop 1)

/-- Local `denomPeriods` of `computeCycle`; JS `/` is exact division here, so
the value is `x.5` for odd edge counts. -/
def denomPeriods (s : EngineState) : ℚ :=
  max 1 (((normalizedNsi s).length : ℚ) / 2 - 1)

/-- Local `avgPeriodMs` of `computeCycle`. -/
def avgPeriodMs (s : EngineState) : ℚ :=
  ((nsiOpenTotal s + nsiClosedTotal s : ℤ) : ℚ) / denomPeriods s

/-- The local variable `fHz` of `computeCycle`, before the one-decimal
rounding applied when the cycle record is built. -/
def rawFHz (s : EngineState) : ℚ :=
  if 0 < avgPeriodMs s then 1000 / avgPeriodMs s else 0

/-- The local variable `dutyClosed` of `computeCycle`. -/
def dutyClosedVal (s : EngineState) : ℤ :=
  if 0 < nsiClosedTotal s + nsiOpenTotal s then
    jround (((nsiClosedTotal s * 100 : ℤ) : ℚ) /
      ((nsiClosedTotal s + nsiOpenTotal s : ℤ) : ℚ))
  else 0

/-- The `warnings` array built by `computeCycle`: the dial-speed check
reads the unrounded local `fHz`, the ratio check reads `dutyClosed`. -/
def cycleWarnings (s : EngineState) : List String :=
  (if rawFHz s < 7 ∨ 13 < rawFHz s then [WARNING_KEYS.DIAL_SPEED] else []) ++
  (if dutyClosedVal s < 10 ∨ 70 < dutyClosedVal s then
    [WARNING_KEYS.PULSE_PAUSE_RATIO_KEY] else [])

/-- Source `computeCycle()`: returns the produced cycle (or `null`) together
with the post-call engine state (only `nsaMissing` can change). -/
def computeCycle (s : EngineState) : Option Cycle × EngineState :=
  if s.nsiTimes.length < 4 then (none, s)
  else
    let nn := s.nsiTimes.headD 0
    let normalizedTimes := normalizedNsi s
    let pulses := normalizedTimes.length / 2
    let nsaOpenMs : Option ℤ :=
      if s.nsaTimes.length = 0 then none
      else if 2 ≤ s.nsaTimes.length then
        some (max 0 (jround (s.nsaTimes.getD 1 0 - nn)))
      else some (max 0 (jround (s.nsaTimes.headD 0 - nn)))
    let nsrOnMs : Option ℤ :=
      if s.nsrTimes.length = 0 then none
      else some (max 0 (jround (s.nsrTimes.headD 0 - nn)))
    let s' := if s.nsaTimes.length = 0 then s else { s with nsaMissing := false }
    (some
      { nnMs := nn
        nsiTimesMs := normalizedTimes
        pulses := pulses
        digit := if pulses = 10 then 0 else pulses
        fHz := (jround (rawFHz s * 10) : ℚ) / 10
        dutyClosed := dutyClosedVal s
        nsaOpenMs := nsaOpenMs
        nsrOnMs := nsrOnMs
        debounceMs := s.debounceMs
        hasNsa := nsaOpenMs.isSome
        hasNsr := nsrOnMs.isSome
        warnings := cycleWarnings s }, s')

/-- The last element of an edge log (`times[times.length - 1]`), `0` on
an empty log; `#maybeFinalize` only reads it on non-empty logs. -/
def lastD : List ℚ → ℚ
  | [] => 0
  | [a] => a
  | _ :: b :: rest => lastD (b :: rest)

/-- Source `#maybeFinalize()` at clock value `now`. -/
def maybeFinalize (s : EngineState) (now : ℚ) : Option Cycle × EngineState :=
  let ni := s.nsiTimes.length
  if s.nsaTimes.length = 0 ∧ 0 < ni ∧ 90 < now - lastD s.nsiTimes ∧
      (ni < 4 ∨ s.hasEvaluatedCycle = true) then
    (none, resetCycle s)
  else if 2 < ni ∧ s.hasEvaluatedCycle = false ∧
      100 < now - lastD s.nsiTimes then
    let r := computeCycle s
    (r.1, { r.2 with hasEvaluatedCycle := true })
  else (none, s)

/-- Source `processStableSignals(signals)` at clock value `now`.  Within one
call the engine reads its injected clock several times; a single `now`
models one call, matching the way the clock is driven per sample. -/
def processStableSignals (s : EngineState) (sig : Signals) (now : ℚ) :
    Option Cycle × EngineState :=
  let s1 := handleNsa s sig.ringIndicator now
  let s2 := handleNsr s1 sig.dataSetReady now
  let s3 := handleNsi s2 sig.dataCarrierDetect now
  maybeFinalize s3 now

/-- Runs `processStableSignals` over a list of (snapshot, clock) inputs,
collecting the per-call cycle results and the final state. -/
def stepResults (s : EngineState) : List (Signals × ℚ) → List (Option Cycle) × EngineState
  | [] => ([], s)
  | (sig, t) :: rest =>
    let r := processStableSignals s sig t
    let tail := stepResults r.2 rest
    (r.1 :: tail.1, tail.2)

/-- Returns `true` iff some call in the run of `processStableSignals` with the
fixed snapshot `sig` at the successive clock values `ts` returns a
non-null cycle. -/
def anyCycle (s : EngineState) (sig : Signals) : List ℚ → Bool
  | [] => false
  | t :: ts =>
    let r := processStableSignals s sig t
    r.1.isSome || anyCycle r.2 sig ts

/-! Helper lemmas about `jround`. -/

theorem jround_nonneg {x : ℚ} (h : 0 ≤ x) : 0 ≤ jround x := by
  unfold jround
  exact Int.floor_nonneg.mpr (by linarith)

theorem jround_le_of_le {x : ℚ} {b : ℤ} (h : x ≤ b) : jround x ≤ b := by
  unfold jround
  have : ⌊x + 1/2⌋ < b + 1 := Int.floor_lt.mpr (by push_cast; linarith)
  omega

/-- C7: `resetCycle` is idempotent; it empties the three edge logs,
clears the evaluated flag, and leaves the stored line values and the
debounce setting unchanged. -/
theorem resetCycle_idempotent (s : EngineState) :
    resetCycle (resetCycle s) = resetCycle s ∧
    (resetCycle s).nsiTimes = [] ∧
    (resetCycle s).nsaTimes = [] ∧
    (resetCycle s).nsrTimes = [] ∧
    (resetCycle s).hasEvaluatedCycle = false ∧
    (resetCycle s).nsiState = s.nsiState ∧
    (resetCycle s).nsaState = s.nsaState ∧
    (resetCycle s).nsrState = s.nsrState ∧
    (resetCycle s).debounceMs = s.debounceMs :=
  ⟨rfl, rfl, rfl, rfl, rfl, rfl, rfl, rfl, rfl⟩

/-- C3: `computeCycle` returns no cycle whenever the primary edge log
holds fewer than 4 entries, whatever the rest of the state is. -/
theorem computeCycle_insufficient_edges (s : EngineState)
    (h : s.nsiTimes.length < 4) : (computeCycle s).1 = none := by
  unfold computeCycle
  simp [h]

/-- Witness for C3 at the freshly constructed engine state. -/
theorem computeCycle_insufficient_edges_witness :
    initialEngine.nsiTimes.length < 4 ∧ (computeCycle initialEngine).1 = none :=
  ⟨by decide, computeCycle_insufficient_edges initialEngine (by decide)⟩

/-- C9: `initializeFromSignals` adopts the three line values and returns
the `NSI_OPEN` ("waiting for first closure") advisory key exactly when
the primary line starts open; with `primary = false` it returns that
advisory rather than an error.  Every engine operation in this
development (`initializeFromSignals`, `processStableSignals`,
`resetCycle`, `resetAll`, `setDebounceMs`) is a total function of its
state and inputs — the source has no throwing path, so "never raises"
holds by construction of the embedding. -/
theorem initialize_open_advisory (s : EngineState) (sig : Signals) :
    (initializeFromSignals s sig).2 =
      (if sig.dataCarrierDetect then none else some WARNING_KEYS.NSI_OPEN) ∧
    (initializeFromSignals s sig).1.nsiState = some sig.dataCarrierDetect ∧
    (initializeFromSignals s sig).1.nsrState = some sig.dataSetReady ∧
    (initializeFromSignals s sig).1.nsaState = some sig.ringIndicator :=
  ⟨rfl, rfl, rfl, rfl⟩

/-- C10: `computeCycle` is read-only on the engine state except for the
`nsaMissing` flag, which it sets to `false` exactly when a cycle is
produced and the secondary edge log is non-empty. -/
theorem computeCycle_frame (s : EngineState) :
    (computeCycle s).2.debounceMs = s.debounceMs ∧
    (computeCycle s).2.nsiTimes = s.nsiTimes ∧
    (computeCycle s).2.nsaTimes = s.nsaTimes ∧
    (computeCycle s).2.nsrTimes = s.nsrTimes ∧
    (computeCycle s).2.nsiState = s.nsiState ∧
    (computeCycle s).2.nsaState = s.nsaState ∧
    (computeCycle s).2.nsrState = s.nsrState ∧
    (computeCycle s).2.hasEvaluatedCycle = s.hasEvaluatedCycle ∧
    (computeCycle s).2.nsaMissing =
      (if (computeCycle s).1.isSome ∧ s.nsaTimes ≠ [] then false
       else s.nsaMissing) := by
  unfold computeCycle
  by_cases h4 : s.nsiTimes.length < 4
  · simp [h4]
  · by_cases ha : s.nsaTimes.length = 0
    · simp [h4, ha, List.length_eq_zero.mp ha]
    · have : s.nsaTimes ≠ [] := by
        intro he
        exact ha (by simp [he])
      simp [h4, ha, this]

/-- Field equations for a produced cycle. -/
theorem computeCycle_some_fields {s : EngineState} {c : Cycle}
    (h : (computeCycle s).1 = some c) :
    c.warnings = cycleWarnings s ∧ c.dutyClosed = dutyClosedVal s ∧
    c.debounceMs = s.debounceMs ∧
    c.fHz = (jround (rawFHz s * 10) : ℚ) / 10 := by
  unfold computeCycle at h
  by_cases h4 : s.nsiTimes.length < 4
  · simp [h4] at h
  · simp only [h4, if_false] at h
    obtain rfl := (Option.some.injEq _ _).mp h
    exact ⟨rfl, rfl, rfl, rfl⟩

/-- The engine state of the spec's worked example: primary edges
`[0, 50, 100, 150, 200, 250]`, secondary edges `[120, 180]`, no
suppress edges. -/
def cState1 : EngineState :=
  { debounceMs := 0, nsiTimes := [0, 50, 100, 150, 200, 250],
    nsaTimes := [120, 180], nsrTimes := [],
    nsiState := some true, nsaState := some false, nsrState := some false,
    hasEvaluatedCycle := false, nsaMissing := true }

/-- The cycle that `computeCycle` produces at `cState1`. -/
def cCycle1 : Cycle :=
  { nnMs := 0, nsiTimesMs := [0, 50, 100, 150, 200, 250],
    pulses := 3, digit := 3, fHz := 10, dutyClosed := 50,
    nsaOpenMs := some 180, nsrOnMs := none, debounceMs := 0,
    hasNsa := true, hasNsr := false, warnings := [] }

theorem computeCycle_cState1 : (computeCycle cState1).1 = some cCycle1 := by
  norm_num [computeCycle, cState1, cCycle1, normalizedNsi, jround,
    Int.floor_eq_iff, cycleWarnings, rawFHz, avgPeriodMs, denomPeriods,
    nsiOpenTotal, nsiClosedTotal, dutyClosedVal, pairDiffSum]

/-- C1: on the worked example (primary edges `[0,50,100,150,200,250]`,
secondary `[120,180]`, suppress empty) `computeCycle` returns a cycle
with `pulses = 3`, `digit = 3`, `fHz = 10`, `dutyClosed = 50`,
`nsaOpenMs = 180`, `nsrOnMs = null` and no warnings. -/
theorem computeCycle_example_metrics :
    (computeCycle cState1).1 = some cCycle1 ∧
    cCycle1.pulses = 3 ∧ cCycle1.digit = 3 ∧ cCycle1.fHz = 10 ∧
    cCycle1.dutyClosed = 50 ∧ cCycle1.nsaOpenMs = some 180 ∧
    cCycle1.nsrOnMs = none ∧ cCycle1.warnings = [] :=
  ⟨computeCycle_cState1, rfl, rfl, rfl, rfl, rfl, rfl, rfl⟩

/-- C5 counterexample: `setDebounceMs` clamps but does not round, so the
stored debounce value is not always an integer — input `7/2` is stored
as `7/2`. -/
theorem setDebounce_nonint_cex :
    (setDebounceMs initialEngine (7/2)).debounceMs = 7/2 ∧
    ¬ ∃ n : ℤ, (setDebounceMs initialEngine (7/2)).debounceMs = (n : ℚ) := by
  have hval : (setDebounceMs initialEngine (7/2)).debounceMs = 7/2 := by
    simp only [setDebounceMs]
    norm_num [max_def, min_def]
  refine ⟨hval, ?_⟩
  rintro ⟨n, hn⟩
  rw [hval] at hn
  have h7 : (7 : ℚ) = 2 * (n : ℚ) := by linarith
  have h7z : (7 : ℤ) = 2 * n := by exact_mod_cast h7
  omega

/-- C5 amended: `setDebounceMs` stores the input clamped to `[0, 10]`
(the stored value is an integer only when the input is — the source does
not round); input `-4` stores `0`, input `20` stores `10`; and the
stored setting is copied verbatim into the `debounceMs` field of every
produced cycle. -/
theorem setDebounce_clamp_and_copy :
    (∀ (s : EngineState) (ms : ℚ),
      (setDebounceMs s ms).debounceMs = max 0 (min 10 ms) ∧
      0 ≤ (setDebounceMs s ms).debounceMs ∧
      (setDebounceMs s ms).debounceMs ≤ 10) ∧
    (∀ s : EngineState,
      (setDebounceMs s (-4)).debounceMs = 0 ∧
      (setDebounceMs s 20).debounceMs = 10) ∧
    (∀ (s : EngineState) (c : Cycle),
      (computeCycle s).1 = some c → c.debounceMs = s.debounceMs) := by
  refine ⟨fun s ms => ⟨rfl, le_max_left _ _, ?_⟩,
    fun s => ⟨?_, ?_⟩,
    fun s c h => (computeCycle_some_fields h).2.2.1⟩
  · exact max_le (by norm_num) (min_le_left _ _)
  · show max 0 (min 10 (-4 : ℚ)) = 0
    norm_num [max_def, min_def]
  · show max 0 (min 10 (20 : ℚ)) = 10
    norm_num [max_def, min_def]

/-- Witness for C5's amended claim at the worked example. -/
theorem setDebounce_clamp_and_copy_witness :
    (computeCycle cState1).1 = some cCycle1 ∧
    cCycle1.debounceMs = cState1.debounceMs :=
  ⟨computeCycle_cState1,
    setDebounce_clamp_and_copy.2.2 cState1 cCycle1 computeCycle_cState1⟩

/-- A primary edge log whose unrounded frequency `1000/143 ≈ 6.993 Hz`
lies below 7 while the one-decimal rounded `fHz` field is exactly
`7.0`. -/
def cState4 : EngineState :=
  { debounceMs := 0, nsiTimes := [0, 0, 100, 143],
    nsaTimes := [], nsrTimes := [],
    nsiState := some true, nsaState := some false, nsrState := some false,
    hasEvaluatedCycle := false, nsaMissing := true }

/-- C4 counterexample: the produced cycle's `fHz` field is `7.0`, which
is neither below 7 nor above 13, yet the `DIAL_SPEED` warning is
present — the source checks the unrounded frequency, not the rounded
field the claim refers to. -/
theorem dial_speed_uses_unrounded_cex :
    (computeCycle cState4).1.map Cycle.fHz = some 7 ∧
    (computeCycle cState4).1.map Cycle.warnings =
      some [WARNING_KEYS.DIAL_SPEED] := by
  constructor <;>
    norm_num [computeCycle, cState4, normalizedNsi, jround,
      Int.floor_eq_iff, cycleWarnings, rawFHz, avgPeriodMs, denomPeriods,
      nsiOpenTotal, nsiClosedTotal, dutyClosedVal, pairDiffSum]

/-- C4 amended: in every produced cycle the `DIAL_SPEED` warning is
present exactly when the *unrounded* frequency (`1000 / avgPeriodMs`,
or `0` for a non-positive average period) is below 7 or above 13 — the
check happens before the one-decimal rounding that produces the `fHz`
field; the `PULSE_PAUSE_RATIO_KEY` warning is present exactly when the
cycle's `dutyClosed` is below 10 or above 70; the list has no other
entries and no duplicates, and the speed warning precedes the ratio
warning when both occur. -/
theorem cycle_warnings_exact (s : EngineState) (c : Cycle)
    (h : (computeCycle s).1 = some c) :
    (WARNING_KEYS.DIAL_SPEED ∈ c.warnings ↔
      (rawFHz s < 7 ∨ 13 < rawFHz s)) ∧
    (WARNING_KEYS.PULSE_PAUSE_RATIO_KEY ∈ c.warnings ↔
      (c.dutyClosed < 10 ∨ 70 < c.dutyClosed)) ∧
    (∀ w ∈ c.warnings,
      w = WARNING_KEYS.DIAL_SPEED ∨ w = WARNING_KEYS.PULSE_PAUSE_RATIO_KEY) ∧
    c.warnings.Nodup ∧
    (WARNING_KEYS.DIAL_SPEED ∈ c.warnings →
      WARNING_KEYS.PULSE_PAUSE_RATIO_KEY ∈ c.warnings →
      c.warnings = [WARNING_KEYS.DIAL_SPEED, WARNING_KEYS.PULSE_PAUSE_RATIO_KEY]) := by
  obtain ⟨hw, hd, -, -⟩ := computeCycle_some_fields h
  have hne : WARNING_KEYS.DIAL_SPEED ≠ WARNING_KEYS.PULSE_PAUSE_RATIO_KEY := by
    decide
  rw [hw, hd]
  unfold cycleWarnings
  by_cases hf : rawFHz s < 7 ∨ 13 < rawFHz s <;>
    by_cases hr : dutyClosedVal s < 10 ∨ 70 < dutyClosedVal s <;>
      simp [hf, hr, hne, hne.symm]

/-- Witness for C4's amended claim at the worked example. -/
theorem cycle_warnings_exact_witness :
    (computeCycle cState1).1 = some cCycle1 ∧
    ((WARNING_KEYS.DIAL_SPEED ∈ cCycle1.warnings ↔
      (rawFHz cState1 < 7 ∨ 13 < rawFHz cState1)) ∧
    (WARNING_KEYS.PULSE_PAUSE_RATIO_KEY ∈ cCycle1.warnings ↔
      (cCycle1.dutyClosed < 10 ∨ 70 < cCycle1.dutyClosed)) ∧
    (∀ w ∈ cCycle1.warnings,
      w = WARNING_KEYS.DIAL_SPEED ∨ w = WARNING_KEYS.PULSE_PAUSE_RATIO_KEY) ∧
    cCycle1.warnings.Nodup ∧
    (WARNING_KEYS.DIAL_SPEED ∈ cCycle1.warnings →
      WARNING_KEYS.PULSE_PAUSE_RATIO_KEY ∈ cCycle1.warnings →
      cCycle1.warnings =
        [WARNING_KEYS.DIAL_SPEED, WARNING_KEYS.PULSE_PAUSE_RATIO_KEY])) :=
  ⟨computeCycle_cState1,
    cycle_warnings_exact cState1 cCycle1 computeCycle_cState1⟩

/-- A state in which the secondary line already logged two edges. The
`hasEvaluatedCycle` flag is set so that clearing it is observable. -/
def cState6 : EngineState :=
  { debounceMs := 0, nsiTimes := [], nsaTimes := [1, 2], nsrTimes := [],
    nsiState := some false, nsaState := some false, nsrState := some false,
    hasEvaluatedCycle := true, nsaMissing := false }

/-- A sample that toggles both the secondary line (`false → true`) and
the primary line (`false → true`) in the same call. -/
def sig6 : Signals :=
  { dataCarrierDetect := true, dataSetReady := false, ringIndicator := true }

/-- C6 counterexample: with the secondary log at two entries and a
toggling secondary value, a sample that simultaneously toggles the
primary line leaves the primary edge log with one entry (the primary
handler runs after the secondary-triggered `resetCycle`), so the edge
logs are not as the claim says after the call. -/
theorem secondary_overflow_cex :
    2 ≤ cState6.nsaTimes.length ∧ cState6.nsaState = some false ∧
    sig6.ringIndicator = true ∧
    (processStableSignals cState6 sig6 5).2.nsiTimes = [5] ∧
    (processStableSignals cState6 sig6 5).2.nsaTimes = [5] := by
  refine ⟨by decide, rfl, rfl, ?_, ?_⟩ <;>
    norm_num [processStableSignals, handleNsa, handleNsr, handleNsi,
      maybeFinalize, resetCycle, computeCycle, cState6, sig6, lastD]

/-- C6 amended: from a state whose secondary value is known and whose
secondary log already holds at least 2 entries, a sample that toggles
the secondary line *and leaves the primary and suppress lines at their
stored values* performs a full `resetCycle` (all three logs cleared and
the evaluated flag dropped) and then records the new secondary edge:
afterwards the secondary log is exactly `[now]`, the other two logs are
empty, the evaluated flag is false, and no cycle is returned. -/
theorem secondary_overflow_reset (s : EngineState) (sig : Signals)
    (now : ℚ) (v : Bool) (hv : s.nsaState = some v)
    (hne : sig.ringIndicator ≠ v) (hlen : 2 ≤ s.nsaTimes.length)
    (hnsi : s.nsiState = some sig.dataCarrierDetect)
    (hnsr : s.nsrState = some sig.dataSetReady) :
    (processStableSignals s sig now).2.nsaTimes = [now] ∧
    (processStableSignals s sig now).2.nsiTimes = [] ∧
    (processStableSignals s sig now).2.nsrTimes = [] ∧
    (processStableSignals s sig now).2.hasEvaluatedCycle = false ∧
    (processStableSignals s sig now).1 = none := by
  have hrun : processStableSignals s sig now =
      (none,
        { s with
          nsiTimes := [], nsaTimes := [now], nsrTimes := [],
          nsaState := some sig.ringIndicator,
          hasEvaluatedCycle := false, nsaMissing := false }) := by
    unfold processStableSignals handleNsa handleNsr handleNsi maybeFinalize
    rw [hv]
    simp [hne, hlen, hnsi, hnsr, resetCycle]
  rw [hrun]
  exact ⟨rfl, rfl, rfl, rfl, rfl⟩

/-- A sample that toggles only the secondary line of `cState6`. -/
def sigW6 : Signals :=
  { dataCarrierDetect := false, dataSetReady := false, ringIndicator := true }

/-- Witness for C6's amended claim at a concrete state and sample. -/
theorem secondary_overflow_reset_witness :
    (cState6.nsaState = some false ∧ sigW6.ringIndicator ≠ false ∧
      2 ≤ cState6.nsaTimes.length ∧
      cState6.nsiState = some sigW6.dataCarrierDetect ∧
      cState6.nsrState = some sigW6.dataSetReady) ∧
    (processStableSignals cState6 sigW6 5).2.nsaTimes = [5] ∧
    (processStableSignals cState6 sigW6 5).2.nsiTimes = [] ∧
    (processStableSignals cState6 sigW6 5).2.nsrTimes = [] ∧
    (processStableSignals cState6 sigW6 5).2.hasEvaluatedCycle = false ∧
    (processStableSignals cState6 sigW6 5).1 = none :=
  ⟨⟨rfl, by decide, by decide, rfl, rfl⟩,
    secondary_overflow_reset cState6 sigW6 5 false rfl (by decide)
      (by decide) rfl rfl⟩

/-- Snapshot with the primary line closed (at rest). -/
def sigClosed : Signals :=
  { dataCarrierDetect := true, dataSetReady := false, ringIndicator := false }

/-- Snapshot with the primary line open (mid-pulse). -/
def sigOpen : Signals :=
  { dataCarrierDetect := false, dataSetReady := false, ringIndicator := false }

/-- Fresh engine initialized with the primary line closed. -/
def c2Start : EngineState := (initializeFromSignals initialEngine sigClosed).1

/-- Two pulses at a 100 ms-per-pulse cadence (edges every 50 ms),
then the line held closed until 150 ms past the last edge. -/
def c2Inputs : List (Signals × ℚ) :=
  [(sigOpen, 50), (sigClosed, 100), (sigOpen, 150), (sigClosed, 200),
    (sigClosed, 350)]

/-- The single cycle the burst of `c2Inputs` produces. -/
def cCycle2 : Cycle :=
  { nnMs := 50, nsiTimesMs := [0, 50, 100, 150],
    pulses := 2, digit := 2, fHz := 10, dutyClosed := 50,
    nsaOpenMs := none, nsrOnMs := none, debounceMs := 0,
    hasNsa := false, hasNsr := false, warnings := [] }

/-- The engine state after the evaluating call of `c2Inputs`: buffers
kept, `hasEvaluatedCycle` set. -/
def c2Final : EngineState :=
  { debounceMs := 0, nsiTimes := [50, 100, 150, 200], nsaTimes := [],
    nsrTimes := [], nsiState := some true, nsaState := some false,
    nsrState := some false, hasEvaluatedCycle := true, nsaMissing := true }

theorem c2_run_eval :
    stepResults c2Start c2Inputs =
      ([none, none, none, none, some cCycle2], c2Final) := by
  norm_num [stepResults, c2Start, c2Inputs, initialEngine, resetAll,
    initializeFromSignals, sigClosed, sigOpen, processStableSignals,
    handleNsa, handleNsr, handleNsi, maybeFinalize, resetCycle, lastD,
    computeCycle, normalizedNsi, jround, Int.floor_eq_iff, cycleWarnings,
    rawFHz, avgPeriodMs, denomPeriods, nsiOpenTotal, nsiClosedTotal,
    dutyClosedVal, pairDiffSum, cCycle2, c2Final]

/-- A constant sample equal to the stored line values never produces a
cycle once the current buffer is evaluated or empty. -/
theorem anyCycle_inert (sig : Signals) :
    ∀ (ts : List ℚ) (s : EngineState),
      s.nsiState = some sig.dataCarrierDetect →
      s.nsaState = some sig.ringIndicator →
      s.nsrState = some sig.dataSetReady →
      (s.hasEvaluatedCycle = true ∨ s.nsiTimes = []) →
      anyCycle s sig ts = false := by
  intro ts
  induction ts with
  | nil => intro s _ _ _ _; rfl
  | cons t ts ih =>
    intro s h1 h2 h3 h4
    have hstep : processStableSignals s sig t = maybeFinalize s t := by
      unfold processStableSignals handleNsa handleNsr handleNsi
      simp [h1, h2, h3]
    have hcons : anyCycle s sig (t :: ts) =
        ((processStableSignals s sig t).1.isSome ||
          anyCycle (processStableSignals s sig t).2 sig ts) := rfl
    rcases h4 with heval | hnil
    · by_cases hg : s.nsaTimes.length = 0 ∧ 0 < s.nsiTimes.length ∧
        90 < t - lastD s.nsiTimes ∧
        (s.nsiTimes.length < 4 ∨ s.hasEvaluatedCycle = true)
      · have hfin : maybeFinalize s t = (none, resetCycle s) := by
          unfold maybeFinalize
          rw [if_pos hg]
        rw [hcons, hstep, hfin]
        simp only [Option.isSome_none, Bool.false_or]
        exact ih (resetCycle s) h1 h2 h3 (Or.inr rfl)
      · have hg2 : ¬ (2 < s.nsiTimes.length ∧ s.hasEvaluatedCycle = false ∧
            100 < t - lastD s.nsiTimes) := by
          rintro ⟨-, hfalse, -⟩
          rw [heval] at hfalse
          exact Bool.noConfusion hfalse
        have hfin : maybeFinalize s t = (none, s) := by
          unfold maybeFinalize
          rw [if_neg hg, if_neg hg2]
        rw [hcons, hstep, hfin]
        simp only [Option.isSome_none, Bool.false_or]
        exact ih s h1 h2 h3 (Or.inl heval)
    · have hg : ¬ (s.nsaTimes.length = 0 ∧ 0 < s.nsiTimes.length ∧
          90 < t - lastD s.nsiTimes ∧
          (s.nsiTimes.length < 4 ∨ s.hasEvaluatedCycle = true)) := by
        rintro ⟨-, hpos, -, -⟩
        rw [hnil] at hpos
        simp at hpos
      have hg2 : ¬ (2 < s.nsiTimes.length ∧ s.hasEvaluatedCycle = false ∧
          100 < t - lastD s.nsiTimes) := by
        rintro ⟨hpos, -, -⟩
        rw [hnil] at hpos
        simp at hpos
      have hfin : maybeFinalize s t = (none, s) := by
        unfold maybeFinalize
        rw [if_neg hg, if_neg hg2]
      rw [hcons, hstep, hfin]
      simp only [Option.isSome_none, Bool.false_or]
      exact ih s h1 h2 h3 (Or.inr hnil)

/-- C2: the init-then-two-pulses trace of `c2Inputs` makes exactly one
`processStableSignals` call return a cycle — the fifth call, once the
primary line has been constant for more than 100 ms — with `pulses = 2`
and `fHz = 10.0`; every later call on the evaluated buffer (same
snapshot, any later clock values) returns null, the `hasEvaluatedCycle`
flag blocking re-evaluation until a reset happens. -/
theorem single_cycle_per_burst :
    (stepResults c2Start c2Inputs).1 =
      [none, none, none, none, some cCycle2] ∧
    cCycle2.pulses = 2 ∧ cCycle2.fHz = 10 ∧
    (stepResults c2Start c2Inputs).2.hasEvaluatedCycle = true ∧
    (∀ ts : List ℚ,
      anyCycle (stepResults c2Start c2Inputs).2 sigClosed ts = false) := by
  refine ⟨by rw [c2_run_eval], rfl, rfl, by rw [c2_run_eval]; rfl, ?_⟩
  intro ts
  rw [c2_run_eval]
  exact anyCycle_inert sigClosed ts c2Final rfl rfl rfl (Or.inl rfl)

theorem chain'_le_drop {l : List ℤ} (h : l.Chain' (· ≤ ·)) (n : ℕ) :
    (l.drop n).Chain' (· ≤ ·) := by
  induction n generalizing l with
  | zero => simpa using h
  | succ n ih =>
    cases l with
    | nil => simp
    | cons a l =>
      rw [List.drop_succ_cons]
      exact ih h.tail

theorem pairDiffSum_nonneg :
    ∀ (l : List ℤ), l.Chain' (· ≤ ·) → 0 ≤ pairDiffSum l
  | [], _ => by simp [pairDiffSum]
  | [a], _ => by simp [pairDiffSum]
  | a :: b :: rest, h => by
    have hab : a ≤ b := (List.chain'_cons.mp h).1
    have hrest : rest.Chain' (· ≤ ·) := (List.chain'_cons.mp h).2.tail
    have htail := pairDiffSum_nonneg rest hrest
    simp only [pairDiffSum]
    linarith

theorem normalizedNsi_chain (s : EngineState)
    (h : s.nsiTimes.Chain' (· ≤ ·)) :
    (normalizedNsi s).Chain' (· ≤ ·) := by
  unfold normalizedNsi
  rw [List.chain'_map]
  refine h.imp ?_
  intro a b hab
  have h2 : jround (a - s.nsiTimes.headD 0) ≤ jround (b - s.nsiTimes.headD 0) := by
    unfold jround
    exact Int.floor_mono (by linarith)
  exact max_le_max le_rfl h2

/-- C8: for a monotone primary edge log of even length at least 4 whose
consecutive edges are 70–130 ms apart, `computeCycle` produces a cycle
whose `dutyClosed` lies in `[0, 100]` and whose `fHz` is nonnegative. -/
theorem duty_freq_bounds (s : EngineState)
    (hlen : 4 ≤ s.nsiTimes.length)
    (heven : s.nsiTimes.length % 2 = 0)
    (hsp : s.nsiTimes.Chain' (fun a b => 70 ≤ b - a ∧ b - a ≤ 130)) :
    ∃ c, (computeCycle s).1 = some c ∧
      0 ≤ c.dutyClosed ∧ c.dutyClosed ≤ 100 ∧ 0 ≤ c.fHz := by
  have h4 : ¬ s.nsiTimes.length < 4 := by omega
  have hle : s.nsiTimes.Chain' (· ≤ ·) :=
    hsp.imp (fun a b hab => by linarith [hab.1])
  have hnorm := normalizedNsi_chain s hle
  have hopen : 0 ≤ nsiOpenTotal s :=
    pairDiffSum_nonneg _ (chain'_le_drop hnorm 2)
  have hclosed : 0 ≤ nsiClosedTotal s :=
    pairDiffSum_nonneg _ (chain'_le_drop hnorm 1)
  have hopenQ : (0 : ℚ) ≤ (nsiOpenTotal s : ℚ) := by exact_mod_cast hopen
  have hsome : ∃ c, (computeCycle s).1 = some c := by
    unfold computeCycle
    simp [h4]
  obtain ⟨c, hc⟩ := hsome
  obtain ⟨-, hd, -, hf⟩ := computeCycle_some_fields hc
  have hduty0 : 0 ≤ dutyClosedVal s := by
    unfold dutyClosedVal
    split
    · next hpos =>
      apply jround_nonneg
      apply div_nonneg
      · exact_mod_cast mul_nonneg hclosed (by norm_num : (0 : ℤ) ≤ 100)
      · exact_mod_cast le_of_lt hpos
    · exact le_refl 0
  have hduty100 : dutyClosedVal s ≤ 100 := by
    unfold dutyClosedVal
    split
    · next hpos =>
      apply jround_le_of_le
      have hposQ : (0 : ℚ) <
          ((nsiClosedTotal s + nsiOpenTotal s : ℤ) : ℚ) := by
        exact_mod_cast hpos
      rw [div_le_iff₀ hposQ]
      push_cast
      linarith
    · norm_num
  have hfhz : 0 ≤ (jround (rawFHz s * 10) : ℚ) / 10 := by
    have hraw : 0 ≤ rawFHz s := by
      unfold rawFHz
      split
      · next hpos => exact le_of_lt (div_pos (by norm_num) hpos)
      · exact le_refl 0
    have := jround_nonneg (show (0 : ℚ) ≤ rawFHz s * 10 by linarith)
    apply div_nonneg _ (by norm_num)
    exact_mod_cast this
  exact ⟨c, hc, by rw [hd]; exact hduty0, by rw [hd]; exact hduty100,
    by rw [hf]; exact hfhz⟩

/-- A plausible two-pulse edge log with 100 ms half-periods. -/
def cState8 : EngineState :=
  { debounceMs := 0, nsiTimes := [0, 100, 200, 300], nsaTimes := [],
    nsrTimes := [], nsiState := some true, nsaState := some false,
    nsrState := some false, hasEvaluatedCycle := false, nsaMissing := true }

/-- Witness for C8 at a concrete monotone edge log. -/
theorem duty_freq_bounds_witness :
    (4 ≤ cState8.nsiTimes.length ∧ cState8.nsiTimes.length % 2 = 0 ∧
      cState8.nsiTimes.Chain' (fun a b => 70 ≤ b - a ∧ b - a ≤ 130)) ∧
    ∃ c, (computeCycle cState8).1 = some c ∧
      0 ≤ c.dutyClosed ∧ c.dutyClosed ≤ 100 ∧ 0 ≤ c.fHz := by
  have h1 : 4 ≤ cState8.nsiTimes.length := by norm_num [cState8]
  have h2 : cState8.nsiTimes.length % 2 = 0 := by norm_num [cState8]
  have h3 : cState8.nsiTimes.Chain' (fun a b => 70 ≤ b - a ∧ b - a ≤ 130) := by
    norm_num [cState8, List.chain'_cons, List.chain'_singleton]
  exact ⟨⟨h1, h2, h3⟩, duty_freq_bounds cState8 h1 h2 h3⟩

end RotaryDial
